import Mathlib

/-!
Verification of the Events CRUD service (`src/server/index.ts`).

The service is a thin layer over a document store holding a single
`events` collection.  We embed it shallowly:

* an `Event` is the record stored in the collection; dates are modelled
  as integers (the result of `new Date(...)` parsing, compared by the
  store's `$gte` / `$lte` operators), and the service-assigned
  timestamps `createdAt` / `updatedAt` as naturals;
* the store is an association list `List (String × Event)` from record
  id to record, and the driver calls `findOne`, `insertOne` (an append
  plus a store-chosen fresh id), `updateOne` (first match, `$set`),
  `deleteOne` (first match) are modelled directly on it;
* each route handler becomes a function from its inputs and the store
  to a response (an inductive mirroring the status codes and JSON
  bodies the handler can produce) and the resulting store;
* the ambient pieces the handler merely calls — date parsing
  (`new Date(string)`), id validation (`ObjectId.isValid`) and the
  clock (`new Date()` at request time) — are parameters `parseDate`,
  `isValidId` and `now` of the handlers, so every theorem holds for
  any parser, id scheme and request time unless stated otherwise.
-/

/-- An event record as persisted in the `events` collection: the five
client fields plus the two service-assigned timestamps
(`src/server/index.ts`, lines 83-91). -/
structure Event where
  title : String
  description : String
  date : Int
  type : String
  time : String
  createdAt : Nat
  updatedAt : Nat
deriving DecidableEq

/-- The `events` collection: records keyed by their store id. -/
abbrev Store := List (String × Event)

/-- A request body destructured as
`const { title, description, date, type, time } = req.body`:
each field is either absent (`undefined`) or a string. -/
structure ReqBody where
  title : Option String
  description : Option String
  date : Option String
  type : Option String
  time : Option String
deriving DecidableEq

/-- JavaScript truthiness of an optional string field: `undefined` and
the empty string are falsy, every other string is truthy. -/
def truthy : Option String → Bool
  | some s => s != ""
  | none => false

/-- The driver's `findOne({ _id: id })`: the first record whose key
matches, if any. -/
def findOne (s : Store) (id : String) : Option Event :=
  (s.find? (fun p => p.1 == id)).map (fun p => p.2)

/-- The driver's `updateOne({ _id: id }, { $set: ... })`: rewrite the
first record whose key matches and report `matchedCount` (0 or 1). -/
def updateOne (s : Store) (id : String) (f : Event → Event) : Store × Nat :=
  match s with
  | [] => ([], 0)
  | (i, e) :: rest =>
    if i == id then ((i, f e) :: rest, 1)
    else
      let r := updateOne rest id f
      ((i, e) :: r.1, r.2)

/-- The driver's `deleteOne({ _id: id })`: remove the first record whose
key matches and report `deletedCount` (0 or 1). -/
def deleteOne (s : Store) (id : String) : Store × Nat :=
  match s with
  | [] => ([], 0)
  | (i, e) :: rest =>
    if i == id then (rest, 1)
    else
      let r := deleteOne rest id
      ((i, e) :: r.1, r.2)

/-- Responses of `POST /api/events`: 400 when a required field is
missing, otherwise 201 with the freshly re-read record
(`findOne` may in principle return `null`, hence the `Option`). -/
inductive CreateRes where
  | missingFields
  | created (body : Option Event)
deriving DecidableEq

/-- Responses of `PUT /api/events/:id`: 400 invalid id, 404 not found,
or 200 with the post-update record read back by `findOne`. -/
inductive PutRes where
  | invalidId
  | notFound
  | ok (body : Option Event)
deriving DecidableEq

/-- Responses of `DELETE /api/events/:id`: 400 invalid id, 404 not
found, or 200 with the confirmation message. -/
inductive DeleteRes where
  | invalidId
  | notFound
  | deleted
deriving DecidableEq

/-- Responses of `GET /api/events/range`: 400 when `start` or `end` is
missing, otherwise 200 with the matching events. -/
inductive RangeRes where
  | badRequest
  | ok (events : List Event)
deriving DecidableEq

/-- Handler of `POST /api/events` (`src/server/index.ts`, lines 72-108).
Validates that `title`, `date`, `type` are truthy, builds the record
with `description`/`time` defaulted via `|| ''` and both timestamps set
to the request time, inserts it under the store-chosen fresh id and
re-reads it for the 201 body. -/
def postEvents (parseDate : String → Int) (b : ReqBody) (now : Nat) (freshId : String)
    (s : Store) : CreateRes × Store :=
  if !truthy b.title || !truthy b.date || !truthy b.type then
    (CreateRes.missingFields, s)
  else
    let event : Event :=
      { title := b.title.getD ""
        description := b.description.getD ""
        date := parseDate (b.date.getD "")
        type := b.type.getD ""
        time := b.time.getD ""
        createdAt := now
        updatedAt := now }
    let s' := s ++ [(freshId, event)]
    (CreateRes.created (findOne s' freshId), s')

/-- The `$set` document of `PUT /api/events/:id` applied to a stored
record (`src/server/index.ts`, lines 120-127): `title`/`date`/`type`
are set only when truthy, `description`/`time` whenever defined
(`!== undefined`), and `updatedAt` is always refreshed. -/
def applyUpdate (parseDate : String → Int) (b : ReqBody) (now : Nat) (e : Event) : Event :=
  { title := if truthy b.title then b.title.getD "" else e.title
    description := match b.description with
      | some d => d
      | none => e.description
    date := if truthy b.date then parseDate (b.date.getD "") else e.date
    type := if truthy b.type then b.type.getD "" else e.type
    time := match b.time with
      | some t => t
      | none => e.time
    createdAt := e.createdAt
    updatedAt := now }

/-- Handler of `PUT /api/events/:id` (`src/server/index.ts`,
lines 111-147): reject invalid ids, apply the partial update through
`updateOne`, 404 when nothing matched, otherwise answer with the
record re-read by `findOne`. -/
def putEvents (parseDate : String → Int) (isValidId : String → Bool) (id : String)
    (b : ReqBody) (now : Nat) (s : Store) : PutRes × Store :=
  if !isValidId id then (PutRes.invalidId, s)
  else
    let r := updateOne s id (applyUpdate parseDate b now)
    if r.2 == 0 then (PutRes.notFound, r.1)
    else (PutRes.ok (findOne r.1 id), r.1)

/-- Handler of `DELETE /api/events/:id` (`src/server/index.ts`,
lines 150-172): reject invalid ids, delete through `deleteOne`, 404
when nothing was deleted, otherwise the confirmation message. -/
def deleteEvents (isValidId : String → Bool) (id : String) (s : Store) :
    DeleteRes × Store :=
  if !isValidId id then (DeleteRes.invalidId, s)
  else
    let r := deleteOne s id
    if r.2 == 0 then (DeleteRes.notFound, r.1)
    else (DeleteRes.deleted, r.1)

/-- Handler of `GET /api/events/range` (`src/server/index.ts`,
lines 46-69): 400 unless both query parameters are truthy, otherwise
the store's `find` with `date: { $gte: parse start, $lte: parse end }`. -/
def getEventsRange (parseDate : String → Int) (startQ endQ : Option String)
    (s : Store) : RangeRes :=
  if !truthy startQ || !truthy endQ then RangeRes.badRequest
  else
    let lo := parseDate (startQ.getD "")
    let hi := parseDate (endQ.getD "")
    RangeRes.ok ((s.map (fun p => p.2)).filter
      (fun e => decide (lo ≤ e.date) && decide (e.date ≤ hi)))

/-- A mutating request against the service, together with the ambient
data of that request (its clock reading, and for creation the fresh id
the store will assign). -/
inductive Op where
  | create (b : ReqBody) (now : Nat) (freshId : String)
  | update (id : String) (b : ReqBody) (now : Nat)
  | delete (id : String)
deriving DecidableEq

/-- The store reached after serving one mutating request. -/
def step (parseDate : String → Int) (isValidId : String → Bool) (s : Store) :
    Op → Store
  | Op.create b now freshId => (postEvents parseDate b now freshId s).2
  | Op.update id b now => (putEvents parseDate isValidId id b now s).2
  | Op.delete id => (deleteEvents isValidId id s).2

/-- The store reached after serving a sequence of mutating requests. -/
def run (parseDate : String → Int) (isValidId : String → Bool) (s : Store) :
    List Op → Store
  | [] => s
  | op :: rest => run parseDate isValidId (step parseDate isValidId s op) rest

/-- Request times never go backwards along a trace: each `create` or
`update` carries a clock reading at least the bound, which it then
becomes for the rest of the trace. -/
def chron (t : Nat) : List Op → Bool
  | [] => true
  | Op.create _ now _ :: rest => decide (t ≤ now) && chron now rest
  | Op.update _ _ now :: rest => decide (t ≤ now) && chron now rest
  | Op.delete _ :: rest => chron t rest

/-! ### Lemmas about the store primitives -/

theorem findOne_cons (i : String) (e : Event) (rest : Store) (id : String) :
    findOne ((i, e) :: rest) id = if i == id then some e else findOne rest id := by
  cases h : (i == id) with
  | true => simp [findOne, List.find?_cons_of_pos, h]
  | false => simp [findOne, List.find?_cons_of_neg, h]

theorem findOne_updateOne (s : Store) (id : String) (f : Event → Event) :
    findOne (updateOne s id f).1 id = (findOne s id).map f := by
  induction s with
  | nil => rfl
  | cons p rest ih =>
    obtain ⟨i, e⟩ := p
    cases h : (i == id) with
    | true => simp [updateOne, h, findOne_cons]
    | false => simp [updateOne, h, findOne_cons, ih]

theorem updateOne_matched_eq_zero (s : Store) (id : String) (f : Event → Event) :
    (updateOne s id f).2 = 0 ↔ findOne s id = none := by
  induction s with
  | nil => simp [updateOne, findOne]
  | cons p rest ih =>
    obtain ⟨i, e⟩ := p
    cases h : (i == id) with
    | true => simp [updateOne, h, findOne_cons]
    | false => simp [updateOne, h, findOne_cons, ih]

theorem findOne_append_fresh (s : Store) (id : String) (ev : Event)
    (h : findOne s id = none) : findOne (s ++ [(id, ev)]) id = some ev := by
  induction s with
  | nil => simp [findOne]
  | cons p rest ih =>
    obtain ⟨i, e⟩ := p
    rw [findOne_cons, ] at h
    cases hb : (i == id) with
    | true => rw [hb] at h; simp at h
    | false =>
      rw [hb] at h
      rw [List.cons_append, findOne_cons, hb]
      simpa using ih (by simpa using h)

theorem mem_updateOne (s : Store) (id : String) (f : Event → Event) (p : String × Event)
    (hp : p ∈ (updateOne s id f).1) :
    p ∈ s ∨ ∃ q ∈ s, p = (q.1, f q.2) := by
  induction s with
  | nil => simp [updateOne] at hp
  | cons q rest ih =>
    obtain ⟨i, e⟩ := q
    cases hb : (i == id) with
    | true =>
      simp only [updateOne, hb, if_pos, List.mem_cons] at hp
      rcases hp with hp | hp
      · exact Or.inr ⟨(i, e), List.mem_cons_self _ _, hp⟩
      · exact Or.inl (List.mem_cons_of_mem _ hp)
    | false =>
      simp only [updateOne, hb, Bool.false_eq_true, if_false, List.mem_cons] at hp
      rcases hp with hp | hp
      · exact Or.inl (hp ▸ List.mem_cons_self _ _)
      · rcases ih hp with h | ⟨q, hq, hpq⟩
        · exact Or.inl (List.mem_cons_of_mem _ h)
        · exact Or.inr ⟨q, List.mem_cons_of_mem _ hq, hpq⟩

theorem mem_deleteOne (s : Store) (id : String) (p : String × Event)
    (hp : p ∈ (deleteOne s id).1) : p ∈ s := by
  induction s with
  | nil => simp [deleteOne] at hp
  | cons q rest ih =>
    obtain ⟨i, e⟩ := q
    cases hb : (i == id) with
    | true =>
      simp only [deleteOne, hb, if_pos] at hp
      exact List.mem_cons_of_mem _ hp
    | false =>
      simp only [deleteOne, hb, Bool.false_eq_true, if_false, List.mem_cons] at hp
      rcases hp with hp | hp
      · exact hp ▸ List.mem_cons_self _ _
      · exact List.mem_cons_of_mem _ (ih hp)

theorem findOne_eq_none_of_not_mem (s : Store) (id : String)
    (h : id ∉ s.map Prod.fst) : findOne s id = none := by
  induction s with
  | nil => rfl
  | cons p rest ih =>
    obtain ⟨i, e⟩ := p
    simp only [List.map_cons, List.mem_cons, not_or] at h
    rw [findOne_cons]
    have hb : (i == id) = false := by simpa using fun hi => h.1 hi.symm
    rw [hb]
    simpa using ih h.2

theorem deleteOne_snd_eq_zero (s : Store) (id : String) (h : findOne s id = none) :
    (deleteOne s id).2 = 0 := by
  induction s with
  | nil => rfl
  | cons p rest ih =>
    obtain ⟨i, e⟩ := p
    rw [findOne_cons] at h
    cases hb : (i == id) with
    | true => rw [hb] at h; simp at h
    | false =>
      rw [hb] at h
      simp only [deleteOne, hb, Bool.false_eq_true, if_false]
      exact ih (by simpa using h)

theorem deleteOne_of_found (s : Store) (id : String)
    (hnd : (s.map Prod.fst).Nodup) (hf : (findOne s id).isSome) :
    (deleteOne s id).2 = 1 ∧ findOne (deleteOne s id).1 id = none := by
  induction s with
  | nil => simp [findOne] at hf
  | cons p rest ih =>
    obtain ⟨i, e⟩ := p
    simp only [List.map_cons, List.nodup_cons] at hnd
    cases hb : (i == id) with
    | true =>
      have hi : i = id := by simpa using hb
      subst hi
      refine ⟨by simp [deleteOne, hb], ?_⟩
      simp only [deleteOne, hb, if_pos]
      exact findOne_eq_none_of_not_mem rest i hnd.1
    | false =>
      rw [findOne_cons, hb] at hf
      simp only [Bool.false_eq_true, if_false] at hf
      obtain ⟨h1, h2⟩ := ih hnd.2 hf
      refine ⟨by simpa [deleteOne, hb] using h1, ?_⟩
      simp only [deleteOne, hb, Bool.false_eq_true, if_false]
      rw [findOne_cons, hb]
      simpa using h2

/-- On a valid id matching a stored record, the PUT handler answers 200
with the record rewritten by the `$set` document, and that record is
what the store now holds under the id. -/
theorem putEvents_ok (parseDate : String → Int) (isValidId : String → Bool)
    (id : String) (b : ReqBody) (now : Nat) (s : Store) (e : Event)
    (hv : isValidId id = true) (hf : findOne s id = some e) :
    (putEvents parseDate isValidId id b now s).1
      = PutRes.ok (some (applyUpdate parseDate b now e)) ∧
    findOne (putEvents parseDate isValidId id b now s).2 id
      = some (applyUpdate parseDate b now e) := by
  have hm : ((updateOne s id (applyUpdate parseDate b now)).2 == 0) = false := by
    rw [beq_eq_false_iff_ne, Ne, updateOne_matched_eq_zero, hf]
    simp
  have hfind : findOne (updateOne s id (applyUpdate parseDate b now)).1 id
      = some (applyUpdate parseDate b now e) := by
    rw [findOne_updateOne, hf]
    rfl
  constructor <;> simp [putEvents, hv, hm, hfind]

/-- A sample stored event used in concrete instantiations. -/
def ev1 : Event :=
  { title := "t", description := "d", date := 3, type := "k", time := "09",
    createdAt := 1, updatedAt := 2 }

/-- Length of the string as a stand-in date parser for concrete runs. -/
def pdLen : String → Int := fun s => (s.length : Int)

/-- An id validator accepting every id, for concrete runs. -/
def vidAll : String → Bool := fun _ => true

/-- The request body supplying no field at all. -/
def bodyNone : ReqBody := ⟨none, none, none, none, none⟩

/-- **C1.** An Update with a valid id matching a stored record changes
only the supplied fields and `updatedAt`: every field the body does not
supply keeps its value from the prior record, and `createdAt` is
untouched; the response and the stored record agree. -/
theorem update_frame (parseDate : String → Int) (isValidId : String → Bool)
    (id : String) (b : ReqBody) (now : Nat) (s : Store) (e : Event)
    (hv : isValidId id = true) (hf : findOne s id = some e) :
    ∃ e', (putEvents parseDate isValidId id b now s).1 = PutRes.ok (some e') ∧
      findOne (putEvents parseDate isValidId id b now s).2 id = some e' ∧
      (b.title = none → e'.title = e.title) ∧
      (b.description = none → e'.description = e.description) ∧
      (b.date = none → e'.date = e.date) ∧
      (b.type = none → e'.type = e.type) ∧
      (b.time = none → e'.time = e.time) ∧
      e'.createdAt = e.createdAt ∧ e'.updatedAt = now := by
  obtain ⟨h1, h2⟩ := putEvents_ok parseDate isValidId id b now s e hv hf
  refine ⟨applyUpdate parseDate b now e, h1, h2, ?_, ?_, ?_, ?_, ?_, rfl, rfl⟩
  all_goals intro h
  all_goals simp [applyUpdate, h, truthy]

/-- Witness for C1: updating only the title of a stored record. -/
theorem update_frame_witness :
    ∃ e', (putEvents pdLen vidAll "a" ⟨some "T", none, none, none, none⟩ 7
        [("a", ev1)]).1 = PutRes.ok (some e') ∧
      findOne (putEvents pdLen vidAll "a" ⟨some "T", none, none, none, none⟩ 7
        [("a", ev1)]).2 "a" = some e' ∧
      ((⟨some "T", none, none, none, none⟩ : ReqBody).title = none →
        e'.title = ev1.title) ∧
      ((⟨some "T", none, none, none, none⟩ : ReqBody).description = none →
        e'.description = ev1.description) ∧
      ((⟨some "T", none, none, none, none⟩ : ReqBody).date = none →
        e'.date = ev1.date) ∧
      ((⟨some "T", none, none, none, none⟩ : ReqBody).type = none →
        e'.type = ev1.type) ∧
      ((⟨some "T", none, none, none, none⟩ : ReqBody).time = none →
        e'.time = ev1.time) ∧
      e'.createdAt = ev1.createdAt ∧ e'.updatedAt = 7 :=
  update_frame pdLen vidAll "a" ⟨some "T", none, none, none, none⟩ 7
    [("a", ev1)] ev1 (by decide) (by decide)

/-- **C3.** In an Update on a stored record, a supplied empty-string
`description` or `time` is applied, while a supplied empty-string
`title`, `date` or `type` is dropped from the `$set` document and the
stored value survives. -/
theorem update_falsy_asymmetry (parseDate : String → Int) (isValidId : String → Bool)
    (id : String) (b : ReqBody) (now : Nat) (s : Store) (e : Event)
    (hv : isValidId id = true) (hf : findOne s id = some e) :
    ∃ e', (putEvents parseDate isValidId id b now s).1 = PutRes.ok (some e') ∧
      findOne (putEvents parseDate isValidId id b now s).2 id = some e' ∧
      (b.description = some "" → e'.description = "") ∧
      (b.time = some "" → e'.time = "") ∧
      (b.title = some "" → e'.title = e.title) ∧
      (b.date = some "" → e'.date = e.date) ∧
      (b.type = some "" → e'.type = e.type) := by
  obtain ⟨h1, h2⟩ := putEvents_ok parseDate isValidId id b now s e hv hf
  refine ⟨applyUpdate parseDate b now e, h1, h2, ?_, ?_, ?_, ?_, ?_⟩
  all_goals intro h
  all_goals simp [applyUpdate, h, truthy]

/-- Witness for C3: a body supplying empty description/time and empty
title/date/type at once. -/
theorem update_falsy_asymmetry_witness :
    ∃ e', (putEvents pdLen vidAll "a" ⟨some "", some "", some "", some "", some ""⟩ 7
        [("a", ev1)]).1 = PutRes.ok (some e') ∧
      findOne (putEvents pdLen vidAll "a" ⟨some "", some "", some "", some "", some ""⟩ 7
        [("a", ev1)]).2 "a" = some e' ∧
      ((⟨some "", some "", some "", some "", some ""⟩ : ReqBody).description = some "" →
        e'.description = "") ∧
      ((⟨some "", some "", some "", some "", some ""⟩ : ReqBody).time = some "" →
        e'.time = "") ∧
      ((⟨some "", some "", some "", some "", some ""⟩ : ReqBody).title = some "" →
        e'.title = ev1.title) ∧
      ((⟨some "", some "", some "", some "", some ""⟩ : ReqBody).date = some "" →
        e'.date = ev1.date) ∧
      ((⟨some "", some "", some "", some "", some ""⟩ : ReqBody).type = some "" →
        e'.type = ev1.type) :=
  update_falsy_asymmetry pdLen vidAll "a" ⟨some "", some "", some "", some "", some ""⟩ 7
    [("a", ev1)] ev1 (by decide) (by decide)

/-- **C2.** A Create whose `title`, `date`, `type` are present and
truthy succeeds with 201; the returned record carries the input title,
the parsed input date and the input type, `description`/`time` default
to `""` when omitted, and `createdAt` equals `updatedAt`. -/
theorem create_valid (parseDate : String → Int) (b : ReqBody) (now : Nat)
    (freshId : String) (s : Store) (t d ty : String)
    (ht : b.title = some t) (htne : t ≠ "")
    (hd : b.date = some d) (hdne : d ≠ "")
    (hty : b.type = some ty) (htyne : ty ≠ "")
    (hfresh : findOne s freshId = none) :
    ∃ e, (postEvents parseDate b now freshId s).1 = CreateRes.created (some e) ∧
      e.title = t ∧ e.date = parseDate d ∧ e.type = ty ∧
      (b.description = none → e.description = "") ∧
      (b.time = none → e.time = "") ∧
      e.createdAt = e.updatedAt := by
  have hcond : (!truthy b.title || !truthy b.date || !truthy b.type) = false := by
    rw [ht, hd, hty]
    simp [truthy, htne, hdne, htyne]
  refine ⟨{ title := b.title.getD "", description := b.description.getD "",
            date := parseDate (b.date.getD ""), type := b.type.getD "",
            time := b.time.getD "", createdAt := now, updatedAt := now },
          ?_, ?_, ?_, ?_, ?_, ?_, rfl⟩
  · simp only [postEvents, hcond, Bool.false_eq_true, if_false]
    rw [findOne_append_fresh s freshId _ hfresh]
  · rw [ht]; rfl
  · rw [hd]; rfl
  · rw [hty]; rfl
  · intro h; rw [h]; rfl
  · intro h; rw [h]; rfl

/-- Witness for C2: creating an event from title/date/type only. -/
theorem create_valid_witness :
    ∃ e, (postEvents pdLen ⟨some "Ritual", none, some "2024-10-31", some "ceremony", none⟩
        5 "a" []).1 = CreateRes.created (some e) ∧
      e.title = "Ritual" ∧ e.date = pdLen "2024-10-31" ∧ e.type = "ceremony" ∧
      ((⟨some "Ritual", none, some "2024-10-31", some "ceremony", none⟩ : ReqBody).description
        = none → e.description = "") ∧
      ((⟨some "Ritual", none, some "2024-10-31", some "ceremony", none⟩ : ReqBody).time
        = none → e.time = "") ∧
      e.createdAt = e.updatedAt :=
  create_valid pdLen ⟨some "Ritual", none, some "2024-10-31", some "ceremony", none⟩
    5 "a" [] "Ritual" "2024-10-31" "ceremony" rfl (by decide) rfl (by decide) rfl
    (by decide) rfl

/-- **C5.** A Create in which `title`, `date` or `type` is missing or
falsy answers 400 `MissingRequiredFields` and leaves the store exactly
as it was: no insert happens. -/
theorem create_missing_fields (parseDate : String → Int) (b : ReqBody) (now : Nat)
    (freshId : String) (s : Store)
    (h : truthy b.title = false ∨ truthy b.date = false ∨ truthy b.type = false) :
    postEvents parseDate b now freshId s = (CreateRes.missingFields, s) := by
  have hcond : (!truthy b.title || !truthy b.date || !truthy b.type) = true := by
    rcases h with h | h | h <;> simp [h]
  simp [postEvents, hcond]

/-- Witness for C5: an empty-string title is rejected. -/
theorem create_missing_fields_witness :
    postEvents pdLen ⟨some "", some "d", some "2024-10-31", some "ceremony", none⟩
      5 "a" [("b", ev1)] = (CreateRes.missingFields, [("b", ev1)]) :=
  create_missing_fields pdLen ⟨some "", some "d", some "2024-10-31", some "ceremony", none⟩
    5 "a" [("b", ev1)] (Or.inl (by decide))

/-- **C6.** An Update or Delete whose id fails the validity check
answers 400 `InvalidId` and returns the store unchanged, before any
store call is made. -/
theorem invalid_id_rejected (parseDate : String → Int) (isValidId : String → Bool)
    (id : String) (b : ReqBody) (now : Nat) (s : Store)
    (h : isValidId id = false) :
    putEvents parseDate isValidId id b now s = (PutRes.invalidId, s) ∧
    deleteEvents isValidId id s = (DeleteRes.invalidId, s) := by
  constructor
  · simp [putEvents, h]
  · simp [deleteEvents, h]

/-- Witness for C6: a validator rejecting every id. -/
theorem invalid_id_rejected_witness :
    putEvents pdLen (fun _ => false) "zz" bodyNone 7 [("a", ev1)]
      = (PutRes.invalidId, [("a", ev1)]) ∧
    deleteEvents (fun _ => false) "zz" [("a", ev1)]
      = (DeleteRes.invalidId, [("a", ev1)]) :=
  invalid_id_rejected pdLen (fun _ => false) "zz" bodyNone 7 [("a", ev1)] rfl

/-- **C7.** On the id of a stored event (ids being unique in the
store), the first Delete answers 200 with the confirmation and the
second Delete on the same id answers 404: the record no longer
matches. -/
theorem delete_twice (isValidId : String → Bool) (id : String) (s : Store)
    (hv : isValidId id = true) (hnd : (s.map Prod.fst).Nodup)
    (hex : (findOne s id).isSome) :
    (deleteEvents isValidId id s).1 = DeleteRes.deleted ∧
    (deleteEvents isValidId id (deleteEvents isValidId id s).2).1
      = DeleteRes.notFound := by
  obtain ⟨h1, h2⟩ := deleteOne_of_found s id hnd hex
  have hz := deleteOne_snd_eq_zero _ id h2
  constructor
  · simp [deleteEvents, hv, h1]
  · simp [deleteEvents, hv, h1, hz]

/-- Witness for C7: deleting the only record twice. -/
theorem delete_twice_witness :
    (deleteEvents vidAll "a" [("a", ev1)]).1 = DeleteRes.deleted ∧
    (deleteEvents vidAll "a" (deleteEvents vidAll "a" [("a", ev1)]).2).1
      = DeleteRes.notFound :=
  delete_twice vidAll "a" [("a", ev1)] rfl (by decide) (by decide)

/-- **C10.** An Update with a valid id matching a stored record and a
body supplying none of the five fields still succeeds with 200: the
`$set` document holds just the refreshed `updatedAt`, so the record is
rewritten with only `updatedAt` changed. -/
theorem update_empty_body (parseDate : String → Int) (isValidId : String → Bool)
    (id : String) (now : Nat) (s : Store) (e : Event)
    (hv : isValidId id = true) (hf : findOne s id = some e) :
    (putEvents parseDate isValidId id bodyNone now s).1
      = PutRes.ok (some { e with updatedAt := now }) ∧
    findOne (putEvents parseDate isValidId id bodyNone now s).2 id
      = some { e with updatedAt := now } := by
  have happ : applyUpdate parseDate bodyNone now e = { e with updatedAt := now } := by
    simp [applyUpdate, bodyNone, truthy]
  obtain ⟨h1, h2⟩ := putEvents_ok parseDate isValidId id bodyNone now s e hv hf
  rw [happ] at h1 h2
  exact ⟨h1, h2⟩

/-- Witness for C10: an empty update on the only stored record. -/
theorem update_empty_body_witness :
    (putEvents pdLen vidAll "a" bodyNone 9 [("a", ev1)]).1
      = PutRes.ok (some { ev1 with updatedAt := 9 }) ∧
    findOne (putEvents pdLen vidAll "a" bodyNone 9 [("a", ev1)]).2 "a"
      = some { ev1 with updatedAt := 9 } :=
  update_empty_body pdLen vidAll "a" 9 [("a", ev1)] ev1 rfl (by decide)

/-- **C4.** With both query parameters present, ListByRange answers 200
with exactly the stored events whose date lies between the parsed
bounds, inclusively on both ends. -/
theorem range_inclusive (parseDate : String → Int) (st en : String) (s : Store)
    (hst : st ≠ "") (hen : en ≠ "") :
    ∃ l, getEventsRange parseDate (some st) (some en) s = RangeRes.ok l ∧
      ∀ e : Event, e ∈ l ↔ e ∈ s.map (fun p => p.2) ∧
        parseDate st ≤ e.date ∧ e.date ≤ parseDate en := by
  have h1 : truthy (some st) = true := by simpa [truthy] using hst
  have h2 : truthy (some en) = true := by simpa [truthy] using hen
  refine ⟨(s.map (fun p => p.2)).filter
      (fun e => decide (parseDate st ≤ e.date) && decide (e.date ≤ parseDate en)),
    ?_, ?_⟩
  · simp [getEventsRange, h1, h2]
  · intro e
    simp [List.mem_filter]

/-- Witness for C4: querying a three-event store. -/
theorem range_inclusive_witness :
    ∃ l, getEventsRange pdLen (some "ab") (some "abcd")
        [("a", ev1), ("b", { ev1 with date := 2 }), ("c", { ev1 with date := 9 })]
      = RangeRes.ok l ∧
      ∀ e : Event, e ∈ l ↔
        e ∈ ([("a", ev1), ("b", { ev1 with date := 2 }),
          ("c", { ev1 with date := 9 })] : Store).map (fun p => p.2) ∧
        pdLen "ab" ≤ e.date ∧ e.date ≤ pdLen "abcd" :=
  range_inclusive pdLen "ab" "abcd"
    [("a", ev1), ("b", { ev1 with date := 2 }), ("c", { ev1 with date := 9 })]
    (by decide) (by decide)

/-- **C9, counterexample.** An Update served at a request time equal to
the record's current `updatedAt` (two updates inside the same clock
tick) succeeds but leaves `updatedAt` equal, not strictly greater: the
handler only copies the request time into `updatedAt`. -/
theorem update_strict_cex :
    (putEvents pdLen vidAll "a" bodyNone 2 [("a", ev1)]).1
      = PutRes.ok (some { ev1 with updatedAt := 2 }) ∧
    ev1.updatedAt = 2 ∧ ¬ ev1.updatedAt < 2 := by
  refine ⟨?_, rfl, by decide⟩
  decide

/-- **C9, amended.** A successful Update on a stored record sets
`updatedAt` to the request time; whenever that time is strictly later
than the record's previous `updatedAt` — which the code itself does not
enforce — the new `updatedAt` is strictly greater than the old one. -/
theorem update_strict_increase (parseDate : String → Int) (isValidId : String → Bool)
    (id : String) (b : ReqBody) (now : Nat) (s : Store) (e : Event)
    (hv : isValidId id = true) (hf : findOne s id = some e)
    (hnow : e.updatedAt < now) :
    ∃ e', (putEvents parseDate isValidId id b now s).1 = PutRes.ok (some e') ∧
      e'.updatedAt = now ∧ e.updatedAt < e'.updatedAt := by
  obtain ⟨h1, _⟩ := putEvents_ok parseDate isValidId id b now s e hv hf
  exact ⟨applyUpdate parseDate b now e, h1, rfl, hnow⟩

/-- Witness for the amended C9: an update one tick later. -/
theorem update_strict_increase_witness :
    ∃ e', (putEvents pdLen vidAll "a" bodyNone 3 [("a", ev1)]).1
        = PutRes.ok (some e') ∧
      e'.updatedAt = 3 ∧ ev1.updatedAt < e'.updatedAt :=
  update_strict_increase pdLen vidAll "a" bodyNone 3 [("a", ev1)] ev1 rfl
    (by decide) (by decide)

/-! ### The `createdAt ≤ updatedAt` invariant along traces -/

/-- Every record's timestamps are ordered and bounded by `t`. -/
def stampedBelow (t : Nat) (s : Store) : Prop :=
  ∀ p ∈ s, (p : String × Event).2.createdAt ≤ p.2.updatedAt ∧ p.2.updatedAt ≤ t

theorem stampedBelow_mono (t t' : Nat) (h : t ≤ t') (s : Store)
    (hs : stampedBelow t s) : stampedBelow t' s :=
  fun p hp => ⟨(hs p hp).1, le_trans (hs p hp).2 h⟩

theorem stampedBelow_run (parseDate : String → Int) (isValidId : String → Bool)
    (t : Nat) (s : Store) (ops : List Op) (hc : chron t ops = true)
    (hs : stampedBelow t s) :
    ∃ t', stampedBelow t' (run parseDate isValidId s ops) := by
  induction ops generalizing t s with
  | nil => exact ⟨t, hs⟩
  | cons op rest ih =>
    cases op with
    | create b now freshId =>
      rw [chron, Bool.and_eq_true, decide_eq_true_eq] at hc
      refine ih now _ hc.2 ?_
      show stampedBelow now (postEvents parseDate b now freshId s).2
      by_cases hb : (!truthy b.title || !truthy b.date || !truthy b.type) = true
      · simpa [postEvents, hb] using stampedBelow_mono t now hc.1 s hs
      · rw [Bool.not_eq_true] at hb
        simp only [postEvents, hb, Bool.false_eq_true, if_false]
        intro p hp
        rcases List.mem_append.mp hp with hp | hp
        · exact (stampedBelow_mono t now hc.1 s hs) p hp
        · rcases List.mem_singleton.mp hp with rfl
          exact ⟨le_refl now, le_refl now⟩
    | update id b now =>
      rw [chron, Bool.and_eq_true, decide_eq_true_eq] at hc
      refine ih now _ hc.2 ?_
      show stampedBelow now (putEvents parseDate isValidId id b now s).2
      by_cases hv : isValidId id
      · have h2 : (putEvents parseDate isValidId id b now s).2
            = (updateOne s id (applyUpdate parseDate b now)).1 := by
          simp only [putEvents, hv, Bool.not_true, Bool.false_eq_true, if_false]
          by_cases hm : ((updateOne s id (applyUpdate parseDate b now)).2 == 0) = true
          · simp [hm]
          · rw [Bool.not_eq_true] at hm
            simp [hm]
        rw [h2]
        intro p hp
        rcases mem_updateOne s id _ p hp with hp | ⟨q, hq, rfl⟩
        · exact (stampedBelow_mono t now hc.1 s hs) p hp
        · exact ⟨le_trans (hs q hq).1 (le_trans (hs q hq).2 hc.1), le_refl now⟩
      · rw [Bool.not_eq_true] at hv
        simpa [putEvents, hv] using stampedBelow_mono t now hc.1 s hs
    | delete id =>
      rw [chron] at hc
      refine ih t _ hc ?_
      show stampedBelow t (deleteEvents isValidId id s).2
      by_cases hv : isValidId id
      · have h2 : (deleteEvents isValidId id s).2 = (deleteOne s id).1 := by
          simp only [deleteEvents, hv, Bool.not_true, Bool.false_eq_true, if_false]
          by_cases hm : ((deleteOne s id).2 == 0) = true
          · simp [hm]
          · rw [Bool.not_eq_true] at hm
            simp [hm]
        rw [h2]
        exact fun p hp => hs p (mem_deleteOne s id p hp)
      · rw [Bool.not_eq_true] at hv
        simpa [deleteEvents, hv] using hs

/-- **C8.** Starting from the empty store, after any sequence of
Create/Update/Delete requests whose clock readings never go backwards,
every persisted record satisfies `createdAt ≤ updatedAt`. -/
theorem createdAt_le_updatedAt (parseDate : String → Int) (isValidId : String → Bool)
    (ops : List Op) (hc : chron 0 ops = true) :
    ∀ p ∈ run parseDate isValidId [] ops,
      (p : String × Event).2.createdAt ≤ p.2.updatedAt := by
  obtain ⟨t', h⟩ := stampedBelow_run parseDate isValidId 0 [] ops hc
    (fun p hp => absurd hp (List.not_mem_nil p))
  exact fun p hp => (h p hp).1

/-- The trace used to instantiate C8: a create, a frame-only update,
a second create and a delete, with nondecreasing clock readings. -/
def opsW : List Op :=
  [Op.create ⟨some "t", none, some "dd", some "k", none⟩ 1 "a",
   Op.update "a" bodyNone 4,
   Op.create ⟨some "u", none, some "ee", some "k", none⟩ 4 "b",
   Op.delete "a"]

/-- The record left in the store by the trace `opsW`. -/
def evW : Event :=
  { title := "u", description := "", date := 2, type := "k", time := "",
    createdAt := 4, updatedAt := 4 }

/-- Witness for C8: the record surviving the trace `opsW` has ordered
timestamps. -/
theorem createdAt_le_updatedAt_witness :
    ("b", evW) ∈ run pdLen vidAll [] opsW ∧ evW.createdAt ≤ evW.updatedAt :=
  ⟨by decide, createdAt_le_updatedAt pdLen vidAll opsW (by decide)
    ("b", evW) (by decide)⟩
